import Mathlib

/-!
# Verification of the javax code-generation core (src/javax.py)

Shallow embedding of the text-to-declaration pipeline of the Sublime Text
plugin: class locator (getGlass), field pattern matcher (fieldsIn),
declaration renderer (setter, fieldDeclaration, assignment, buildBuilder),
and the brace-counting indentation formatter (sanitizeJava, formatJava,
removeMarkers).  Strings are modelled as Lean strings (lists of characters);
Python regular-expression behaviour is realized by deterministic scanners
that reproduce the leftmost, greedy-with-backtracking semantics of the
concrete patterns appearing in the source.
-/

namespace Javax

/-! ## Character classes

Python regex classes restricted to the ASCII range used by the plugin:
isSpaceChar models the ASCII part of a whitespace class, isWordChar the
word class of letters, digits and underscore. -/

def isSpaceChar (c : Char) : Bool :=
  c == ' ' || c == '\t' || c == '\n' || c == '\r' || c == '\x0b' || c == '\x0c'

def isWordChar (c : Char) : Bool :=
  c.isAlpha || c.isDigit || c == '_'

/-- Character class of the type capture in fieldsIn: word characters or a dot. -/
def isTypeChar (c : Char) : Bool :=
  isWordChar c || c == '.'

/-! ## Data model (namedtuples Class and Field from the source) -/

structure Class where
  accessor : String
  name : String
deriving DecidableEq, Repr

structure Field where
  type : String
  name : String
deriving DecidableEq, Repr

/-- Exceptions that the embedded Python code can raise. -/
inductive PyError where
  | attributeError
deriving DecidableEq, Repr

/-! ## sanitizeJava

Source: re.sub with a newline-plus-spaces pattern deleting each newline
together with the run of spaces after it, then a space-run pattern
collapsing each maximal run of spaces to a single space. -/

/-- One pass deleting every newline together with the run of spaces
following it; the Bool state records that we are inside such a run. -/
def stripNLGo : Bool → List Char → List Char
  | _, [] => []
  | true, ' ' :: rest => stripNLGo true rest
  | _, '\n' :: rest => stripNLGo true rest
  | _, c :: rest => c :: stripNLGo false rest

/-- One pass collapsing each maximal run of spaces to a single space; the
Bool state records that the previous character was a space. -/
def collapseGo : Bool → List Char → List Char
  | _, [] => []
  | prev, ' ' :: rest => if prev then collapseGo true rest else ' ' :: collapseGo true rest
  | _, c :: rest => c :: collapseGo false rest

def sanitizeJava (code : String) : String :=
  String.mk (collapseGo false (stripNLGo false code.data))

/-! ## Token splitting

Source: re.split on a capturing group of the three delimiter characters,
which yields the alternating content/delimiter list, empty contents
included. -/

def isDelim (c : Char) : Bool :=
  c == '\x7b' || c == '\x7d' || c == ';'

def splitGo (cur : List Char) : List Char → List String
  | [] => [String.mk cur.reverse]
  | c :: rest =>
    if isDelim c then String.mk cur.reverse :: String.mk [c] :: splitGo [] rest
    else splitGo (c :: cur) rest

def splitTokens (cs : List Char) : List String :=
  splitGo [] cs

/-! ## Emission (the loop body of formatJava) -/

/-- Source: the join of a repetition of one space; a non-positive count
yields the empty string exactly as Python string repetition does. -/
def indentation (indent : Int) (indentSize : Nat) : String :=
  String.mk (List.replicate (indent * (indentSize : Int)).toNat ' ')

def openBrace : String := "\x7b"

def closeBrace : String := "\x7d"

/-- One iteration of the token loop in formatJava: an opening brace bumps
the level and appends itself plus a newline; a closing brace drops the
level, pops the pending indentation-plus-content pair and re-emits the
closing line at the lowered level followed by a blank line; a semicolon
ends the line; any other token is emitted behind the current
indentation. -/
def emitStep (indentSize : Nat) (st : Int × List String) (token : String) :
    Int × List String :=
  if token = openBrace then
    (st.1 + 1, st.2 ++ [token, "\n"])
  else if token = closeBrace then
    let ind := st.1 - 1
    (ind, st.2.dropLast.dropLast ++ [indentation ind indentSize, token, "\n", "\n"])
  else if token = ";" then
    (st.1, st.2 ++ [token, "\n"])
  else
    (st.1, st.2 ++ [indentation st.1 indentSize, token])

/-! ## removeMarkers

Source: one substitution deleting a run of spaces followed by the
plus-marker and a semicolon, then one deleting two newlines, a run of
spaces and the minus-marker with its semicolon. -/

/-- Deletes each maximal run of spaces that is immediately followed by the
four characters of the plus marker; pending counts spaces of the current
run not yet flushed. -/
def plusGo (pending : Nat) : List Char → List Char
  | [] => List.replicate pending ' '
  | ' ' :: rest => plusGo (pending + 1) rest
  | '+' :: '+' :: '+' :: ';' :: rest =>
    if pending == 0 then '+' :: '+' :: '+' :: ';' :: plusGo 0 rest
    else plusGo 0 rest
  | c :: rest => List.replicate pending ' ' ++ c :: plusGo 0 rest

/-- Deletes each occurrence of two newlines, at least one space and the
minus marker; m and s count the trailing newlines and spaces seen so far
and not yet flushed. -/
def minusGo (m s : Nat) : List Char → List Char
  | [] => List.replicate m '\n' ++ List.replicate s ' '
  | '\n' :: rest =>
    if s == 0 then minusGo (m + 1) 0 rest
    else List.replicate m '\n' ++ List.replicate s ' ' ++ minusGo 1 0 rest
  | ' ' :: rest => minusGo m (s + 1) rest
  | '-' :: '-' :: '-' :: ';' :: rest =>
    if 2 ≤ m && 1 ≤ s then List.replicate (m - 2) '\n' ++ minusGo 0 0 rest
    else
      List.replicate m '\n' ++ List.replicate s ' ' ++
        '-' :: '-' :: '-' :: ';' :: minusGo 0 0 rest
  | c :: rest => List.replicate m '\n' ++ List.replicate s ' ' ++ c :: minusGo 0 0 rest

def removeMarkers (code : String) : String :=
  String.mk (minusGo 0 0 (plusGo 0 code.data))

/-! ## Field pattern matcher (fieldsIn)

The source pattern, written out, is: line start, optional whitespace,
an optional access modifier out of private, protected, public followed
by whitespace, an optional final followed by whitespace, a type run of
word characters and dots, whitespace, a name run of word characters,
optional whitespace, and a semicolon or equals sign.  The backtracking
of the Python engine degenerates to the deterministic scanner below:
every greedy run is maximal because the element after it can never
consume a character of the run, and a failed optional group falls back
to the variant without it. -/

def privChars : List Char := ['p', 'r', 'i', 'v', 'a', 't', 'e']

def protChars : List Char := ['p', 'r', 'o', 't', 'e', 'c', 't', 'e', 'd']

def pubChars : List Char := ['p', 'u', 'b', 'l', 'i', 'c']

def finalChars : List Char := ['f', 'i', 'n', 'a', 'l']

def headIsSpace : List Char → Bool
  | c :: _ => isSpaceChar c
  | [] => false

/-- A keyword literal followed by mandatory whitespace; returns the text
after the consumed whitespace run. -/
def tryLit (lit cs : List Char) : Option (List Char) :=
  if cs.take lit.length = lit ∧ headIsSpace (cs.drop lit.length) = true then
    some ((cs.drop lit.length).dropWhile isSpaceChar)
  else none

/-- Type run, whitespace, name run, optional whitespace, terminator. -/
def matchCore (cs : List Char) : Option (Field × List Char) :=
  let t := cs.takeWhile isTypeChar
  let r1 := cs.dropWhile isTypeChar
  let w1 := r1.takeWhile isSpaceChar
  let r2 := r1.dropWhile isSpaceChar
  let n := r2.takeWhile isWordChar
  let r3 := (r2.dropWhile isWordChar).dropWhile isSpaceChar
  if t.isEmpty || w1.isEmpty || n.isEmpty then none
  else
    match r3 with
    | ';' :: rest => some (⟨String.mk t, String.mk n⟩, rest)
    | '=' :: rest => some (⟨String.mk t, String.mk n⟩, rest)
    | _ => none

/-- The optional final group with its fallback. -/
def afterFinalOpt (s : List Char) : Option (Field × List Char) :=
  match tryLit finalChars s with
  | some s2 =>
    match matchCore s2 with
    | some r => some r
    | none => matchCore s
  | none => matchCore s

/-- The access-modifier alternation; the three literals are mutually
exclusive at a fixed position. -/
def tryAccessor (s : List Char) : Option (List Char) :=
  match tryLit privChars s with
  | some r => some r
  | none =>
    match tryLit protChars s with
    | some r => some r
    | none => tryLit pubChars s

/-- Attempt of the whole field pattern at one position (which the caller
guarantees to be a line start). -/
def matchFieldAt (cs : List Char) : Option (Field × List Char) :=
  let s := cs.dropWhile isSpaceChar
  match tryAccessor s with
  | some s2 =>
    match afterFinalOpt s2 with
    | some r => some r
    | none => afterFinalOpt s
  | none => afterFinalOpt s

/-- The finditer scan: attempts start only where the multiline anchor
holds (string start or just after a newline); a successful match resumes
after its terminator, a failed attempt advances one character.  The fuel
is the remaining length plus one, which the scan never exhausts. -/
def scanAux : Nat → Bool → List Char → List Field
  | _, _, [] => []
  | 0, _, _ => []
  | fuel + 1, atStart, c :: rest =>
    if atStart then
      match matchFieldAt (c :: rest) with
      | some (f, rem) => f :: scanAux fuel false rem
      | none => scanAux fuel (c == '\n') rest
    else scanAux fuel (c == '\n') rest

def fieldsIn (text : String) : List Field :=
  scanAux (text.data.length + 1) true text.data

/-! ## Class locator (getGlass)

Pattern: an optional word run followed by whitespace, the class keyword,
whitespace, and a word-run name; searched at every position, leftmost
match wins.  A missing match makes the source call groupdict on None,
an AttributeError. -/

def classChars : List Char := ['c', 'l', 'a', 's', 's']

/-- The class keyword, whitespace and the name run. -/
def matchClassKw (cs : List Char) : Option (List Char) :=
  if cs.take 5 = classChars ∧ headIsSpace (cs.drop 5) = true then
    let n := ((cs.drop 5).dropWhile isSpaceChar).takeWhile isWordChar
    if n.isEmpty then none else some n
  else none

/-- Attempt of the class pattern at one position, accessor variant first. -/
def matchClassAt (cs : List Char) : Option (Option (List Char) × List Char) :=
  let w := cs.takeWhile isWordChar
  let attempt :=
    if w.isEmpty = false ∧ headIsSpace (cs.dropWhile isWordChar) = true then
      (matchClassKw ((cs.dropWhile isWordChar).dropWhile isSpaceChar)).map
        (fun nm => (some w, nm))
    else none
  match attempt with
  | some r => some r
  | none => (matchClassKw cs).map (fun nm => (none, nm))

def searchClass : List Char → Option (Option (List Char) × List Char)
  | [] => none
  | c :: rest =>
    match matchClassAt (c :: rest) with
    | some r => some r
    | none => searchClass rest

def getGlass (text : String) : Except PyError Class :=
  match searchClass text.data with
  | some (acc, nm) => .ok ⟨(acc.map String.mk).getD "", String.mk nm⟩
  | none => .error .attributeError

/-! ## Declaration renderer -/

def fieldDeclaration (f : Field) : String :=
  "private " ++ f.type ++ " " ++ f.name ++ ";"

def capitalize (s : String) : String :=
  match s.data with
  | [] => ""
  | c :: rest => String.mk (c.toUpper :: rest)

def assignment (f : Field) : String :=
  "this." ++ f.name ++ " = " ++ f.name ++ ";"

/-- The setter template of the source, whitespace reproduced verbatim. -/
def setter (accessor : String) (f : Field) : String :=
  "\n            " ++ accessor ++ " Builder set" ++ capitalize f.name ++ "(" ++
    f.type ++ " " ++ f.name ++ ") \x7b\n                " ++ assignment f ++
    "\n            \x7d\n        "

/-- The builder template of the source, whitespace reproduced verbatim. -/
def buildBuilder (glass : Class) (fields : List Field) : String :=
  "\n        +++;\n        " ++ glass.accessor ++ " class Builder \x7b\n            " ++
    String.intercalate "\n" (fields.map fieldDeclaration) ++
    "\n            +++;\n            " ++
    String.intercalate "\n" (fields.map (setter glass.accessor)) ++
    "\n            " ++ glass.accessor ++ " " ++ glass.name ++
    " build() \x7b\n                return new " ++ glass.name ++ "(" ++
    String.intercalate ", " (fields.map Field.name) ++
    ");\n            \x7d\n            ---;\n        \x7d\n    "

/-- The selection text assembled by JavaxGenerateBuilderCommand.run: the
join of the selected spans with the empty separator. -/
def selectedTextOf (spans : List String) : String :=
  String.join spans

/-! ## formatJava

The three final pops of the source raise an IndexError when the token
list carries no delimiter at all (the emitted list then has only two
entries); this crash is modelled by the none result. -/

def formatJava (indentSize : Nat) (initialIndent : Int) (code : String) :
    Option String :=
  let toks := splitTokens (sanitizeJava code).data
  if toks.length ≤ 1 then none
  else
    some (removeMarkers (String.join
      (((toks.foldl (emitStep indentSize) (initialIndent, [])).2).dropLast.dropLast.dropLast)))

/-! ## Canonical field-declaration lines

Input constructors used to quantify over the family of one-line field
declarations that the matcher accepts: chosen indentation, an optional
access modifier, an optional final, a type run, mandatory whitespace, a
name run, optional whitespace and a terminator. -/

def accessorStr : Option (List Char) → List Char
  | none => []
  | some a => a ++ [' ']

def finalStr : Bool → List Char
  | true => finalChars ++ [' ']
  | false => []

def fieldLine (ind : Nat) (acc : Option (List Char)) (fin : Bool) (ty : List Char)
    (w1 : Nat) (nm : List Char) (w3 : Nat) (term : Char) (rest : List Char) :
    List Char :=
  List.replicate ind ' ' ++ (accessorStr acc ++ (finalStr fin ++ (ty ++ ' ' ::
    (List.replicate w1 ' ' ++ (nm ++ (List.replicate w3 ' ' ++ term :: rest))))))

/-! ## Helper lemmas on character classes -/

theorem space_not_word {c : Char} (h : isSpaceChar c = true) : isWordChar c = false := by
  simp only [isSpaceChar, Bool.or_eq_true, beq_iff_eq] at h
  rcases h with (((((rfl | rfl) | rfl) | rfl) | rfl) | rfl) <;> decide

theorem space_not_type {c : Char} (h : isSpaceChar c = true) : isTypeChar c = false := by
  simp only [isSpaceChar, Bool.or_eq_true, beq_iff_eq] at h
  rcases h with (((((rfl | rfl) | rfl) | rfl) | rfl) | rfl) <;> decide

theorem word_not_space {c : Char} (h : isWordChar c = true) : isSpaceChar c = false := by
  cases hs : isSpaceChar c with
  | false => rfl
  | true => rw [space_not_word hs] at h; exact absurd h (by simp)

theorem type_not_space {c : Char} (h : isTypeChar c = true) : isSpaceChar c = false := by
  cases hs : isSpaceChar c with
  | false => rfl
  | true => rw [space_not_type hs] at h; exact absurd h (by simp)

theorem word_is_type {c : Char} (h : isWordChar c = true) : isTypeChar c = true := by
  simp [isTypeChar, h]

theorem mem_replicate_space {n : Nat} {c : Char} (h : c ∈ List.replicate n ' ') :
    isSpaceChar c = true := by
  rw [List.eq_of_mem_replicate h]; decide

/-! ## Helper lemmas on lists -/

theorem isPrefixOf_of_take_eq :
    ∀ (lit l : List Char) (n : Nat), l.take n = lit → lit.isPrefixOf l = true := by
  intro lit
  induction lit with
  | nil => intro l n _; cases l <;> rfl
  | cons c t ih =>
    intro l n h
    cases l with
    | nil => simp at h
    | cons a l' =>
      cases n with
      | zero => simp at h
      | succ m =>
        simp only [List.take_succ_cons, List.cons.injEq] at h
        obtain ⟨rfl, h2⟩ := h
        simp only [List.isPrefixOf, beq_self_eq_true, Bool.true_and]
        exact ih l' m h2

theorem takeWhile_pad_term (p : Char → Bool) (w : Nat) (term : Char) (rest : List Char)
    (hsp : p ' ' = false) (ht : p term = false) :
    (List.replicate w ' ' ++ term :: rest).takeWhile p = [] := by
  cases w with
  | zero => simp [List.takeWhile_cons, ht]
  | succ n => simp [List.replicate_succ, List.takeWhile_cons, hsp]

theorem dropWhile_pad_term (p : Char → Bool) (w : Nat) (term : Char) (rest : List Char)
    (hsp : p ' ' = false) (ht : p term = false) :
    (List.replicate w ' ' ++ term :: rest).dropWhile p =
      List.replicate w ' ' ++ term :: rest := by
  cases w with
  | zero => simp [List.dropWhile_cons, ht]
  | succ n => simp [List.replicate_succ, List.dropWhile_cons, hsp]

/-! ## Behaviour of tryLit on constructed lines -/

/-- A keyword literal in front of its mandatory whitespace is consumed. -/
theorem tryLit_self (lit r : List Char) :
    tryLit lit (lit ++ ' ' :: r) = some (r.dropWhile isSpaceChar) := by
  unfold tryLit
  rw [List.take_left, List.drop_left]
  simp [headIsSpace, List.dropWhile_cons, isSpaceChar]

/-- A word-character keyword that is not a prefix of the leading word run
of the text cannot match: either the comparison fails inside the run, or
it runs into the space behind the run, which is no word character. -/
theorem tryLit_none (lit ty r : List Char) (hlit : lit.all isWordChar = true)
    (hpre : lit.isPrefixOf ty = false) : tryLit lit (ty ++ ' ' :: r) = none := by
  unfold tryLit
  rw [if_neg]
  rintro ⟨h1, -⟩
  by_cases hle : lit.length ≤ ty.length
  · rw [List.take_append_of_le_length hle] at h1
    rw [isPrefixOf_of_take_eq lit ty lit.length h1] at hpre
    exact absurd hpre (by simp)
  · rw [List.take_append_eq_append_take, List.take_of_length_le (by omega)] at h1
    have hk : ∃ m, lit.length - ty.length = m + 1 := ⟨lit.length - ty.length - 1, by omega⟩
    obtain ⟨m, hm⟩ := hk
    rw [hm, List.take_succ_cons] at h1
    have hmem : ' ' ∈ lit := by
      rw [← h1]; exact List.mem_append_right _ (List.mem_cons_self _ _)
    have := List.all_eq_true.mp hlit ' ' hmem
    exact absurd this (by decide)

/-! ## The deterministic core of the field pattern -/

theorem matchCore_shape (ty nm rest : List Char) (w1 w3 : Nat) (term : Char)
    (hty : ty ≠ []) (hty2 : ty.all isTypeChar = true)
    (hnm : nm ≠ []) (hnm2 : nm.all isWordChar = true)
    (hterm : term = ';' ∨ term = '=') :
    matchCore (ty ++ ' ' ::
        (List.replicate w1 ' ' ++ (nm ++ (List.replicate w3 ' ' ++ term :: rest)))) =
      some (⟨String.mk ty, String.mk nm⟩, rest) := by
  have hty' : ∀ a ∈ ty, isTypeChar a := List.all_eq_true.mp hty2
  have hnm' : ∀ a ∈ nm, isWordChar a := List.all_eq_true.mp hnm2
  have htermw : isWordChar term = false := by rcases hterm with rfl | rfl <;> decide
  have hterms : isSpaceChar term = false := by rcases hterm with rfl | rfl <;> decide
  obtain ⟨n0, nm', rfl⟩ : ∃ a l, nm = a :: l := by
    cases nm with
    | nil => exact absurd rfl hnm
    | cons a l => exact ⟨a, l, rfl⟩
  obtain ⟨t0, ty', rfl⟩ : ∃ a l, ty = a :: l := by
    cases ty with
    | nil => exact absurd rfl hty
    | cons a l => exact ⟨a, l, rfl⟩
  have hn0 : isWordChar n0 = true := hnm' n0 (List.mem_cons_self _ _)
  have hn0s : isSpaceChar n0 = false := word_not_space hn0
  set S := List.replicate w3 ' ' ++ term :: rest with hS
  set R1 := List.replicate w1 ' ' ++ ((n0 :: nm') ++ S) with hR1
  set X := (t0 :: ty') ++ ' ' :: R1 with hX
  have e1 : X.takeWhile isTypeChar = t0 :: ty' := by
    rw [hX, List.takeWhile_append_of_pos hty', List.takeWhile_cons]
    simp [show isTypeChar ' ' = false from rfl]
  have e2 : X.dropWhile isTypeChar = ' ' :: R1 := by
    rw [hX, List.dropWhile_append_of_pos hty', List.dropWhile_cons]
    simp [show isTypeChar ' ' = false from rfl]
  have e3 : ((' ' :: R1).takeWhile isSpaceChar).isEmpty = false := by
    rw [List.takeWhile_cons]
    simp [show isSpaceChar ' ' = true from rfl]
  have e4 : (' ' :: R1).dropWhile isSpaceChar = (n0 :: nm') ++ S := by
    rw [List.dropWhile_cons]
    simp only [show isSpaceChar ' ' = true from rfl, if_true]
    rw [hR1, List.dropWhile_append_of_pos (fun a ha => mem_replicate_space ha),
      List.cons_append, List.dropWhile_cons]
    simp [hn0s]
  have e5 : ((n0 :: nm') ++ S).takeWhile isWordChar = n0 :: nm' := by
    rw [List.takeWhile_append_of_pos hnm', hS,
      takeWhile_pad_term isWordChar w3 term rest (by decide) htermw]
    simp
  have e6 : ((n0 :: nm') ++ S).dropWhile isWordChar = S := by
    rw [List.dropWhile_append_of_pos hnm', hS,
      dropWhile_pad_term isWordChar w3 term rest (by decide) htermw]
  have e7 : S.dropWhile isSpaceChar = term :: rest := by
    rw [hS, List.dropWhile_append_of_pos (fun a ha => mem_replicate_space ha),
      List.dropWhile_cons]
    simp [hterms]
  simp only [matchCore, e1, e2, e3, e4, e5, e6, e7, List.isEmpty_cons,
    Bool.false_or, Bool.or_self, Bool.false_eq_true, if_false]
  rcases hterm with rfl | rfl <;> rfl

/-! ## Assembling the full field pattern on canonical lines -/

theorem dropWhile_space_keep (k W : List Char) (hk : k.all isWordChar = true)
    (hne : k ≠ []) : (k ++ W).dropWhile isSpaceChar = k ++ W := by
  cases k with
  | nil => exact absurd rfl hne
  | cons c k' =>
    rw [List.cons_append, List.dropWhile_cons]
    simp [word_not_space (List.all_eq_true.mp hk c (List.mem_cons_self _ _))]

theorem dropWhile_space_keep_ty (k W : List Char) (hk : k.all isTypeChar = true)
    (hne : k ≠ []) : (k ++ W).dropWhile isSpaceChar = k ++ W := by
  cases k with
  | nil => exact absurd rfl hne
  | cons c k' =>
    rw [List.cons_append, List.dropWhile_cons]
    simp [type_not_space (List.all_eq_true.mp hk c (List.mem_cons_self _ _))]

theorem dropWhile_space_finCore (fin : Bool) (ty X : List Char)
    (hty : ty ≠ []) (hty2 : ty.all isTypeChar = true) :
    (finalStr fin ++ (ty ++ X)).dropWhile isSpaceChar = finalStr fin ++ (ty ++ X) := by
  cases fin with
  | true =>
    simp only [finalStr, List.append_assoc]
    exact dropWhile_space_keep finalChars _ (by decide) (by decide)
  | false =>
    simp only [finalStr, List.nil_append]
    exact dropWhile_space_keep_ty ty X hty2 hty

theorem afterFinal_shape (fin : Bool) (ty nm rest : List Char) (w1 w3 : Nat) (term : Char)
    (hty : ty ≠ []) (hty2 : ty.all isTypeChar = true)
    (hnm : nm ≠ []) (hnm2 : nm.all isWordChar = true)
    (hterm : term = ';' ∨ term = '=')
    (hp4 : finalChars.isPrefixOf ty = false) :
    afterFinalOpt (finalStr fin ++ (ty ++ ' ' ::
        (List.replicate w1 ' ' ++ (nm ++ (List.replicate w3 ' ' ++ term :: rest))))) =
      some (⟨String.mk ty, String.mk nm⟩, rest) := by
  have hcore := matchCore_shape ty nm rest w1 w3 term hty hty2 hnm hnm2 hterm
  cases fin with
  | false =>
    simp only [finalStr, List.nil_append]
    unfold afterFinalOpt
    rw [tryLit_none finalChars ty _ (by decide) hp4]
    exact hcore
  | true =>
    have hform : finalStr true ++ (ty ++ ' ' ::
        (List.replicate w1 ' ' ++ (nm ++ (List.replicate w3 ' ' ++ term :: rest)))) =
        finalChars ++ ' ' :: (ty ++ ' ' ::
          (List.replicate w1 ' ' ++ (nm ++ (List.replicate w3 ' ' ++ term :: rest)))) := by
      simp [finalStr]
    rw [hform]
    unfold afterFinalOpt
    rw [tryLit_self, dropWhile_space_keep_ty ty _ hty2 hty]
    simp [hcore]

theorem matchFieldAt_shape (ind w1 w3 : Nat) (acc : Option (List Char)) (fin : Bool)
    (ty nm rest : List Char) (term : Char)
    (hacc : acc = none ∨ acc = some privChars ∨ acc = some protChars ∨ acc = some pubChars)
    (hty : ty ≠ []) (hty2 : ty.all isTypeChar = true)
    (hnm : nm ≠ []) (hnm2 : nm.all isWordChar = true)
    (hterm : term = ';' ∨ term = '=')
    (hp1 : privChars.isPrefixOf ty = false) (hp2 : protChars.isPrefixOf ty = false)
    (hp3 : pubChars.isPrefixOf ty = false) (hp4 : finalChars.isPrefixOf ty = false) :
    matchFieldAt (fieldLine ind acc fin ty w1 nm w3 term rest) =
      some (⟨String.mk ty, String.mk nm⟩, rest) := by
  have haf := afterFinal_shape fin ty nm rest w1 w3 term hty hty2 hnm hnm2 hterm hp4
  rcases hacc with rfl | rfl | rfl | rfl
  · -- no access modifier
    have hs : (fieldLine ind none fin ty w1 nm w3 term rest).dropWhile isSpaceChar =
        finalStr fin ++ (ty ++ ' ' ::
          (List.replicate w1 ' ' ++ (nm ++ (List.replicate w3 ' ' ++ term :: rest)))) := by
      simp only [fieldLine, accessorStr, List.nil_append]
      rw [List.dropWhile_append_of_pos (fun a ha => mem_replicate_space ha)]
      exact dropWhile_space_finCore fin ty _ hty hty2
    have hta : tryAccessor (finalStr fin ++ (ty ++ ' ' ::
        (List.replicate w1 ' ' ++ (nm ++ (List.replicate w3 ' ' ++ term :: rest))))) = none := by
      cases fin with
      | false =>
        simp only [finalStr, List.nil_append]
        unfold tryAccessor
        rw [tryLit_none privChars ty _ (by decide) hp1,
          tryLit_none protChars ty _ (by decide) hp2,
          tryLit_none pubChars ty _ (by decide) hp3]
      | true =>
        have hform : finalStr true ++ (ty ++ ' ' ::
            (List.replicate w1 ' ' ++ (nm ++ (List.replicate w3 ' ' ++ term :: rest)))) =
            finalChars ++ ' ' :: (ty ++ ' ' ::
              (List.replicate w1 ' ' ++ (nm ++ (List.replicate w3 ' ' ++ term :: rest)))) := by
          simp [finalStr]
        rw [hform]
        unfold tryAccessor
        rw [tryLit_none privChars finalChars _ (by decide) (by decide),
          tryLit_none protChars finalChars _ (by decide) (by decide),
          tryLit_none pubChars finalChars _ (by decide) (by decide)]
    simp only [matchFieldAt, hs, hta, haf]
  · -- private
    have hs : (fieldLine ind (some privChars) fin ty w1 nm w3 term rest).dropWhile isSpaceChar =
        privChars ++ ' ' :: (finalStr fin ++ (ty ++ ' ' ::
          (List.replicate w1 ' ' ++ (nm ++ (List.replicate w3 ' ' ++ term :: rest))))) := by
      simp only [fieldLine, accessorStr, List.append_assoc, List.singleton_append]
      rw [List.dropWhile_append_of_pos (fun a ha => mem_replicate_space ha)]
      exact dropWhile_space_keep privChars _ (by decide) (by decide)
    have hta : tryAccessor (privChars ++ ' ' :: (finalStr fin ++ (ty ++ ' ' ::
        (List.replicate w1 ' ' ++ (nm ++ (List.replicate w3 ' ' ++ term :: rest)))))) =
        some (finalStr fin ++ (ty ++ ' ' ::
          (List.replicate w1 ' ' ++ (nm ++ (List.replicate w3 ' ' ++ term :: rest))))) := by
      unfold tryAccessor
      rw [tryLit_self, dropWhile_space_finCore fin ty _ hty hty2]
    simp only [matchFieldAt, hs, hta, haf]
  · -- protected
    have hs : (fieldLine ind (some protChars) fin ty w1 nm w3 term rest).dropWhile isSpaceChar =
        protChars ++ ' ' :: (finalStr fin ++ (ty ++ ' ' ::
          (List.replicate w1 ' ' ++ (nm ++ (List.replicate w3 ' ' ++ term :: rest))))) := by
      simp only [fieldLine, accessorStr, List.append_assoc, List.singleton_append]
      rw [List.dropWhile_append_of_pos (fun a ha => mem_replicate_space ha)]
      exact dropWhile_space_keep protChars _ (by decide) (by decide)
    have hta : tryAccessor (protChars ++ ' ' :: (finalStr fin ++ (ty ++ ' ' ::
        (List.replicate w1 ' ' ++ (nm ++ (List.replicate w3 ' ' ++ term :: rest)))))) =
        some (finalStr fin ++ (ty ++ ' ' ::
          (List.replicate w1 ' ' ++ (nm ++ (List.replicate w3 ' ' ++ term :: rest))))) := by
      unfold tryAccessor
      rw [tryLit_none privChars protChars _ (by decide) (by decide),
        tryLit_self, dropWhile_space_finCore fin ty _ hty hty2]
    simp only [matchFieldAt, hs, hta, haf]
  · -- public
    have hs : (fieldLine ind (some pubChars) fin ty w1 nm w3 term rest).dropWhile isSpaceChar =
        pubChars ++ ' ' :: (finalStr fin ++ (ty ++ ' ' ::
          (List.replicate w1 ' ' ++ (nm ++ (List.replicate w3 ' ' ++ term :: rest))))) := by
      simp only [fieldLine, accessorStr, List.append_assoc, List.singleton_append]
      rw [List.dropWhile_append_of_pos (fun a ha => mem_replicate_space ha)]
      exact dropWhile_space_keep pubChars _ (by decide) (by decide)
    have hta : tryAccessor (pubChars ++ ' ' :: (finalStr fin ++ (ty ++ ' ' ::
        (List.replicate w1 ' ' ++ (nm ++ (List.replicate w3 ' ' ++ term :: rest)))))) =
        some (finalStr fin ++ (ty ++ ' ' ::
          (List.replicate w1 ' ' ++ (nm ++ (List.replicate w3 ' ' ++ term :: rest))))) := by
      unfold tryAccessor
      rw [tryLit_none privChars pubChars _ (by decide) (by decide),
        tryLit_none protChars pubChars _ (by decide) (by decide),
        tryLit_self, dropWhile_space_finCore fin ty _ hty hty2]
    simp only [matchFieldAt, hs, hta, haf]

/-- A single full-line match makes the scan return exactly that field. -/
theorem fieldsIn_of_match (line : List Char) (f : Field) (hne : line ≠ [])
    (hm : matchFieldAt line = some (f, [])) : fieldsIn (String.mk line) = [f] := by
  cases line with
  | nil => exact absurd rfl hne
  | cons c rest =>
    show scanAux ((c :: rest).length + 1) true (c :: rest) = [f]
    rw [List.length_cons]
    simp [scanAux, hm]

/-! ## Claim C5: the shape accepted by the field matcher -/

/-- C5 counterexample: the matcher does not accept the shapes the claim
ascribes to it.  A transient or volatile modifier blocks the match
entirely, a generic type with angle brackets and a comma is not matched
at all (let alone captured verbatim), and a dollar sign in the name is
not part of the name class. -/
theorem fieldsIn_rejects_spec_shapes :
    fieldsIn "transient int x;" = [] ∧ fieldsIn "volatile int x;" = [] ∧
      fieldsIn "Map<String, Integer> m;" = [] ∧ fieldsIn "int a$b;" = [] := by
  refine ⟨?_, ?_, ?_, ?_⟩ <;> decide

/-- C5 amended: the matcher accepts lines made of optional indentation, an
optional access modifier among private, protected and public, an optional
final, a type run of word characters and dots, whitespace, a name run of
word characters, optional whitespace and a semicolon or equals sign, and
it captures the type and name verbatim; a full such line extracts exactly
that one field.  The spec's additional shapes are not accepted: transient
and volatile, angle brackets and commas inside types, and dollar signs in
names all make the line unmatched. -/
theorem fieldsIn_accepted_shape (ind w1 w3 : Nat) (acc : Option (List Char)) (fin : Bool)
    (ty nm rest : List Char) (term : Char)
    (hacc : acc = none ∨ acc = some privChars ∨ acc = some protChars ∨ acc = some pubChars)
    (hty : ty ≠ []) (hty2 : ty.all isTypeChar = true)
    (hnm : nm ≠ []) (hnm2 : nm.all isWordChar = true)
    (hterm : term = ';' ∨ term = '=')
    (hp1 : privChars.isPrefixOf ty = false) (hp2 : protChars.isPrefixOf ty = false)
    (hp3 : pubChars.isPrefixOf ty = false) (hp4 : finalChars.isPrefixOf ty = false) :
    matchFieldAt (fieldLine ind acc fin ty w1 nm w3 term rest) =
        some (⟨String.mk ty, String.mk nm⟩, rest) ∧
      fieldsIn (String.mk (fieldLine ind acc fin ty w1 nm w3 term [])) =
        [⟨String.mk ty, String.mk nm⟩] ∧
      fieldsIn "transient int x;" = [] ∧ fieldsIn "volatile int x;" = [] ∧
      fieldsIn "Map<String, Integer> m;" = [] ∧ fieldsIn "int a$b;" = [] := by
  refine ⟨matchFieldAt_shape ind w1 w3 acc fin ty nm rest term hacc hty hty2 hnm hnm2
    hterm hp1 hp2 hp3 hp4, ?_, by decide, by decide, by decide, by decide⟩
  refine fieldsIn_of_match _ _ ?_
    (matchFieldAt_shape ind w1 w3 acc fin ty nm [] term hacc hty hty2 hnm hnm2
      hterm hp1 hp2 hp3 hp4)
  intro hcontra
  have : (fieldLine ind acc fin ty w1 nm w3 term []).length = 0 := by rw [hcontra]; rfl
  rw [fieldLine] at this
  simp only [List.length_append, List.length_cons, List.length_replicate] at this
  omega

/-- C5 witness: the accepted-shape theorem instantiated on the line
consisting of two spaces of indent, private, final, the dotted type
java.util.List, the name items and a semicolon. -/
theorem fieldsIn_accepted_shape_witness :
    matchFieldAt (fieldLine 2 (some privChars) true "java.util.List".data 0 "items".data 0 ';' [])
        = some (⟨"java.util.List", "items"⟩, []) ∧
      fieldsIn (String.mk (fieldLine 2 (some privChars) true "java.util.List".data 0 "items".data 0 ';' []))
        = [⟨"java.util.List", "items"⟩] ∧
      fieldsIn "transient int x;" = [] ∧ fieldsIn "volatile int x;" = [] ∧
      fieldsIn "Map<String, Integer> m;" = [] ∧ fieldsIn "int a$b;" = [] :=
  fieldsIn_accepted_shape 2 0 0 (some privChars) true "java.util.List".data "items".data [] ';'
    (Or.inr (Or.inl rfl)) (by decide) (by decide) (by decide) (by decide) (Or.inl rfl)
    (by decide) (by decide) (by decide) (by decide)

/-! ## Claim C7: the class locator on canonical inputs -/

theorem takeWhile_all_self (p : Char → Bool) (l : List Char)
    (h : ∀ a ∈ l, p a = true) : l.takeWhile p = l := by
  induction l with
  | nil => rfl
  | cons c t ih =>
    rw [List.takeWhile_cons]
    simp only [h c (List.mem_cons_self _ _), if_true, List.cons.injEq, true_and]
    exact ih (fun a ha => h a (List.mem_cons_of_mem _ ha))

theorem dropWhile_space_all_word (l : List Char) (hne : l ≠ [])
    (h : l.all isWordChar = true) : l.dropWhile isSpaceChar = l := by
  cases l with
  | nil => exact absurd rfl hne
  | cons c t =>
    rw [List.dropWhile_cons]
    simp [word_not_space (List.all_eq_true.mp h c (List.mem_cons_self _ _))]

theorem matchClassKw_self (nm : List Char) (hne : nm ≠ [])
    (hnm : nm.all isWordChar = true) :
    matchClassKw (classChars ++ ' ' :: nm) = some nm := by
  have h1 : (' ' :: nm).dropWhile isSpaceChar = nm := by
    rw [List.dropWhile_cons]
    simp only [show isSpaceChar ' ' = true from rfl, if_true]
    exact dropWhile_space_all_word nm hne hnm
  have h2 : nm.takeWhile isWordChar = nm :=
    takeWhile_all_self _ _ (List.all_eq_true.mp hnm)
  have h3 : nm.isEmpty = false := by
    cases nm with
    | nil => exact absurd rfl hne
    | cons a l => rfl
  unfold matchClassKw
  rw [List.take_left' (show classChars.length = 5 from rfl),
    List.drop_left' (show classChars.length = 5 from rfl)]
  simp [headIsSpace, h1, h2, h3, show isSpaceChar ' ' = true from rfl]

theorem matchClassKw_none_word (w : List Char) (hw : w.all isWordChar = true) :
    matchClassKw w = none := by
  unfold matchClassKw
  rw [if_neg]
  rintro ⟨-, h2⟩
  cases hd : w.drop 5 with
  | nil => rw [hd] at h2; exact absurd h2 (by decide)
  | cons c r =>
    rw [hd] at h2
    have hc : c ∈ w := List.drop_subset 5 w (hd ▸ List.mem_cons_self c r)
    have := word_not_space (List.all_eq_true.mp hw c hc)
    simp only [headIsSpace] at h2
    rw [this] at h2
    exact absurd h2 (by simp)

theorem matchClassAt_noacc (nm : List Char) (hne : nm ≠ [])
    (hnm : nm.all isWordChar = true) :
    matchClassAt (classChars ++ ' ' :: nm) = some (none, nm) := by
  have hw : (classChars ++ ' ' :: nm).takeWhile isWordChar = classChars := by
    rw [List.takeWhile_append_of_pos (by decide), List.takeWhile_cons]
    simp [show isWordChar ' ' = false from rfl]
  have hd : (classChars ++ ' ' :: nm).dropWhile isWordChar = ' ' :: nm := by
    rw [List.dropWhile_append_of_pos (by decide), List.dropWhile_cons]
    simp [show isWordChar ' ' = false from rfl]
  have hds : (' ' :: nm).dropWhile isSpaceChar = nm := by
    rw [List.dropWhile_cons]
    simp only [show isSpaceChar ' ' = true from rfl, if_true]
    exact dropWhile_space_all_word nm hne hnm
  unfold matchClassAt
  rw [hw, hd, hds]
  simp [headIsSpace, matchClassKw_none_word nm hnm,
    matchClassKw_self nm hne hnm]

theorem matchClassAt_acc (acc nm : List Char) (hane : acc ≠ [])
    (ha : acc.all isWordChar = true) (hne : nm ≠ []) (hnm : nm.all isWordChar = true) :
    matchClassAt (acc ++ ' ' :: (classChars ++ ' ' :: nm)) = some (some acc, nm) := by
  have ha' := List.all_eq_true.mp ha
  have hw : (acc ++ ' ' :: (classChars ++ ' ' :: nm)).takeWhile isWordChar = acc := by
    rw [List.takeWhile_append_of_pos ha', List.takeWhile_cons]
    simp [show isWordChar ' ' = false from rfl]
  have hd : (acc ++ ' ' :: (classChars ++ ' ' :: nm)).dropWhile isWordChar =
      ' ' :: (classChars ++ ' ' :: nm) := by
    rw [List.dropWhile_append_of_pos ha', List.dropWhile_cons]
    simp [show isWordChar ' ' = false from rfl]
  have hds : (' ' :: (classChars ++ ' ' :: nm)).dropWhile isSpaceChar =
      classChars ++ ' ' :: nm := by
    rw [List.dropWhile_cons]
    simp only [show isSpaceChar ' ' = true from rfl, if_true]
    exact dropWhile_space_keep classChars _ (by decide) (by decide)
  have hacc0 : acc.isEmpty = false := by
    cases acc with
    | nil => exact absurd rfl hane
    | cons a l => rfl
  unfold matchClassAt
  rw [hw, hd, hds]
  simp [headIsSpace, hacc0, matchClassKw_self nm hne hnm,
    show isSpaceChar ' ' = true from rfl]

/-- C7: on a source text of the shape accessor class Name the locator
returns the accessor and the name, and on class Name alone it returns
the empty accessor instead of failing. -/
theorem getGlass_shape (acc nm : List Char) (hane : acc ≠ [])
    (ha : acc.all isWordChar = true) (hne : nm ≠ []) (hnm : nm.all isWordChar = true) :
    getGlass (String.mk (acc ++ ' ' :: (classChars ++ ' ' :: nm))) =
        .ok ⟨String.mk acc, String.mk nm⟩ ∧
      getGlass (String.mk (classChars ++ ' ' :: nm)) = .ok ⟨"", String.mk nm⟩ := by
  constructor
  · obtain ⟨a0, acc', rfl⟩ : ∃ a l, acc = a :: l := by
      cases acc with
      | nil => exact absurd rfl hane
      | cons a l => exact ⟨a, l, rfl⟩
    have hm : matchClassAt (a0 :: (acc' ++ ' ' :: (classChars ++ ' ' :: nm))) =
        some (some (a0 :: acc'), nm) := by
      have h := matchClassAt_acc (a0 :: acc') nm hane ha hne hnm
      rwa [List.cons_append] at h
    have hsearch : searchClass
        (String.mk ((a0 :: acc') ++ ' ' :: (classChars ++ ' ' :: nm))).data =
        some (some (a0 :: acc'), nm) := by
      rw [show (String.mk ((a0 :: acc') ++ ' ' :: (classChars ++ ' ' :: nm))).data =
          a0 :: (acc' ++ ' ' :: (classChars ++ ' ' :: nm)) from rfl]
      rw [searchClass, hm]
    simp only [getGlass, hsearch]
    rfl
  · have hm : matchClassAt ('c' :: 'l' :: 'a' :: 's' :: 's' :: ' ' :: nm) =
        some (none, nm) := matchClassAt_noacc nm hne hnm
    have hsearch : searchClass (String.mk (classChars ++ ' ' :: nm)).data =
        some (none, nm) := by
      rw [show (String.mk (classChars ++ ' ' :: nm)).data =
          'c' :: 'l' :: 'a' :: 's' :: 's' :: ' ' :: nm from rfl]
      rw [searchClass, hm]
    simp only [getGlass, hsearch]
    rfl

/-- C7 witness: the locator applied to public class Foo and to class Foo. -/
theorem getGlass_shape_witness :
    getGlass (String.mk ("public".data ++ ' ' :: (classChars ++ ' ' :: "Foo".data))) =
        .ok ⟨"public", "Foo"⟩ ∧
      getGlass (String.mk (classChars ++ ' ' :: "Foo".data)) = .ok ⟨"", "Foo"⟩ :=
  getGlass_shape "public".data "Foo".data (by decide) (by decide) (by decide) (by decide)

/-! ## Claim C1: the indentation walk -/

theorem emitStep_fst (s : Nat) (st : Int × List String) (tok : String) :
    (emitStep s st tok).1 =
      st.1 + (if tok = openBrace then 1 else 0) - (if tok = closeBrace then 1 else 0) := by
  have hoc : openBrace ≠ closeBrace := by decide
  have hco : closeBrace ≠ openBrace := by decide
  have hso : (";" : String) ≠ openBrace := by decide
  have hsc : (";" : String) ≠ closeBrace := by decide
  unfold emitStep
  by_cases h1 : tok = openBrace
  · subst h1
    simp [hoc]
  · by_cases h2 : tok = closeBrace
    · subst h2
      simp [hco]
    · by_cases h3 : tok = ";"
      · subst h3
        simp [hso, hsc]
      · simp [h1, h2, h3]

/-- The indent counter over any token stream: the initial level plus the
number of opening-brace tokens minus the number of closing-brace tokens. -/
theorem emit_fold_fst (s : Nat) (toks : List String) (st : Int × List String) :
    (toks.foldl (emitStep s) st).1 =
      st.1 + (toks.countP (fun t => t == openBrace) : Int)
        - (toks.countP (fun t => t == closeBrace) : Int) := by
  induction toks generalizing st with
  | nil => simp
  | cons t ts ih =>
    rw [List.foldl_cons, ih, emitStep_fst]
    simp only [List.countP_cons, beq_iff_eq]
    by_cases h1 : t = openBrace <;> by_cases h2 : t = closeBrace <;>
      simp [h1, h2] <;> omega

/-- C1: the formatter walks the token stream of the sanitized snippet with
an indent counter initialized to the initial level, incremented on each
opening-brace token and decremented on each closing-brace token; a line
ending in an opening brace is emitted at the pre-increment level (the
brace token itself adds no indentation, so the line keeps the indentation
emitted for its content at the old level); a closing-brace line is
indented at the post-decrement level; every non-delimiter token is
prefixed with an indentation of exactly level times indent-size spaces;
and formatJava is exactly the pops-and-join of this walk. -/
theorem formatJava_walk (s : Nat) (i0 : Int) (code : String) :
    (((splitTokens (sanitizeJava code).data).foldl (emitStep s) (i0, [])).1
        = i0 + ((splitTokens (sanitizeJava code).data).countP (fun t => t == openBrace) : Int)
            - ((splitTokens (sanitizeJava code).data).countP (fun t => t == closeBrace) : Int))
    ∧ (∀ (ind : Int) (acc : List String),
        emitStep s (ind, acc) openBrace = (ind + 1, acc ++ [openBrace, "\n"]))
    ∧ (∀ (ind : Int) (acc : List String),
        emitStep s (ind, acc) closeBrace
          = (ind - 1, acc.dropLast.dropLast ++ [indentation (ind - 1) s, closeBrace, "\n", "\n"]))
    ∧ (∀ (ind : Int) (acc : List String) (tok : String),
        tok ≠ openBrace → tok ≠ closeBrace → tok ≠ ";" →
        emitStep s (ind, acc) tok = (ind, acc ++ [indentation ind s, tok]))
    ∧ (∀ ind : Int, 0 ≤ ind → (indentation ind s).data = List.replicate (ind.toNat * s) ' ')
    ∧ (2 ≤ (splitTokens (sanitizeJava code).data).length →
        formatJava s i0 code = some (removeMarkers (String.join
          ((((splitTokens (sanitizeJava code).data).foldl (emitStep s)
            (i0, [])).2).dropLast.dropLast.dropLast)))) := by
  refine ⟨emit_fold_fst s _ _, ?_, ?_, ?_, ?_, ?_⟩
  · intro ind acc
    simp [emitStep]
  · intro ind acc
    simp [emitStep, show closeBrace ≠ openBrace from by decide]
  · intro ind acc tok h1 h2 h3
    simp [emitStep, h1, h2, h3]
  · intro ind hind
    obtain ⟨k, rfl⟩ := Int.eq_ofNat_of_zero_le hind
    rfl
  · intro hlen
    unfold formatJava
    rw [if_neg (by omega)]

/-- C1 witness: the walk theorem instantiated at indent size 2, initial
level 1 and the snippet a;, with the step rules applied to concrete
tokens and levels. -/
theorem formatJava_walk_witness :
    emitStep 2 (1, ([] : List String)) "x" = (1, [indentation 1 2, "x"]) ∧
      (indentation 2 2).data = List.replicate 4 ' ' ∧
      formatJava 2 1 "a;" = some (removeMarkers (String.join
        ((((splitTokens (sanitizeJava "a;").data).foldl (emitStep 2)
          (1, [])).2).dropLast.dropLast.dropLast))) :=
  ⟨(formatJava_walk 2 1 "a;").2.2.2.1 1 [] "x" (by decide) (by decide) (by decide),
   (formatJava_walk 2 1 "a;").2.2.2.2.1 2 (by decide),
   (formatJava_walk 2 1 "a;").2.2.2.2.2 (by decide)⟩

/-! ## Claim C4: field order is preserved end to end -/

set_option maxRecDepth 8192 in
/-- C4: the rendered builder places the private field declarations, the
setters and the arguments of the constructor invocation inside build()
as order-preserving maps of the supplied field sequence, with no
reordering anywhere; and the full downstream pipeline on the two-field
example class keeps the order name, age in all three places of the
formatted output. -/
theorem buildBuilder_order (glass : Class) (fields : List Field) :
    buildBuilder glass fields =
        "\n        +++;\n        " ++ glass.accessor ++ " class Builder \x7b\n            " ++
          String.intercalate "\n" (fields.map fieldDeclaration) ++
          "\n            +++;\n            " ++
          String.intercalate "\n" (fields.map (setter glass.accessor)) ++
          "\n            " ++ glass.accessor ++ " " ++ glass.name ++
          " build() \x7b\n                return new " ++ glass.name ++ "(" ++
          String.intercalate ", " (fields.map Field.name) ++
          ");\n            \x7d\n            ---;\n        \x7d\n    " ∧
      formatJava 2 1 (buildBuilder ⟨"public", "Foo"⟩ [⟨"String", "name"⟩, ⟨"int", "age"⟩]) =
        some ("\n  public class Builder \x7b\n    private String name;\n    private int age;\n\n    public Builder setName(String name) \x7b\n      this.name = name;\n    \x7d\n\n    public Builder setAge(int age) \x7b\n      this.age = age;\n    \x7d\n\n    public Foo build() \x7b\n      return new Foo(name, age);\n    \x7d\n  \x7d\n") :=
  ⟨rfl, by decide⟩

/-! ## Claim C9: selected spans are joined with no separator -/

/-- C9 counterexample: the run command joins the selected spans with the
empty separator, not with a newline, and on the spans int a and b; the
field declaration merges across the span boundary into the spurious
field int ab. -/
theorem selectedText_merges_spans :
    selectedTextOf ["int a", "b;"] ≠ String.intercalate "\n" ["int a", "b;"] ∧
      fieldsIn (selectedTextOf ["int a", "b;"]) = [⟨"int", "ab"⟩] := by
  refine ⟨?_, ?_⟩ <;> decide

/-- C9 amended: the selection text is the plain concatenation of the
spans' contents with no separator at all, so a field declaration at the
end of one span can merge with the start of the next — on the spans
int a and b; the concatenation yields the merged field int ab, which the
newline-separated text would not produce. -/
theorem selectedText_concat (spans : List String) :
    (selectedTextOf spans).data = (spans.map String.data).flatten ∧
      fieldsIn (selectedTextOf ["int a", "b;"]) = [⟨"int", "ab"⟩] ∧
      fieldsIn (String.intercalate "\n" ["int a", "b;"]) = [] := by
  refine ⟨?_, by decide, by decide⟩
  have key : ∀ (l : List String) (a : String),
      (l.foldl (fun r s => r ++ s) a).data = a.data ++ (l.map String.data).flatten := by
    intro l
    induction l with
    | nil => intro a; simp
    | cons x xs ih =>
      intro a
      rw [List.foldl_cons, ih]
      simp [List.flatten_cons]
  have h := key spans ""
  show (String.join spans).data = _
  unfold String.join
  simpa using h

/-! ## Claim C2: field extraction and non-field lines -/

/-- C2: the source pattern is not confined to single lines: its whitespace
classes cross newlines, so the two lines private and x; — neither of which
is a one-line field declaration, as the empty extraction on each line alone
shows — produce one spurious field spanning both lines, instead of the N
entries and M silently skipped lines the claim promises. -/
theorem fieldsIn_spans_lines :
    fieldsIn "private\nx;" = [⟨"private", "x"⟩] ∧
      fieldsIn "private" = [] ∧ fieldsIn "x;" = [] := by
  refine ⟨?_, ?_, ?_⟩ <;> decide

/-! ## Claim C3: the generated setter body -/

/-- C3: the rendered setter for a field of type int named age, under the
accessor public.  The method is named set plus the capitalized field name
and takes one parameter of the field type, but its body holds only the
assignment this.age = age; — there is no return statement, although the
declared result type is Builder. -/
theorem setter_body_no_return :
    setter "public" ⟨"int", "age"⟩ =
      "\n            public Builder setAge(int age) \x7b\n                this.age = age;\n            \x7d\n        " := by
  decide

/-! ## Claim C6: unbalanced braces pass the formatter silently -/

/-- C6: the snippet x;} carries one unmatched closing brace (zero opening
braces, one closing brace), yet formatJava returns an output string
instead of failing: the indent level silently drifts to minus one, which
the indentation helper renders as the empty prefix. -/
theorem formatJava_unbalanced_silent :
    formatJava 2 0 "x;\x7d" = some "x;\n\x7d\n" ∧
      ("x;\x7d".data.count '\x7b' = 0 ∧ "x;\x7d".data.count '\x7d' = 1) := by
  refine ⟨?_, ?_, ?_⟩ <;> decide

/-! ## Claim C8: missing class declaration -/

/-- C8: on a source text with no class declaration the locator's search
comes back empty and the source calls groupdict on None, raising an
AttributeError out of the string processing — not the clean ParseError
the claim requires. -/
theorem getGlass_noClass_attributeError :
    getGlass "int x;" = .error .attributeError := by
  rfl

/-! ## Claim C10: formatting is not idempotent -/

/-- C10: the brace-balanced snippet a; formats to two-space indentation at
indent size 2 and level 1, but re-formatting that correctly indented
output yields a different string: sanitizeJava strips indentation only
after newlines, so the first line's leading spaces merely collapse to a
single space, which survives in front of the re-emitted indentation. -/
theorem formatJava_not_idempotent :
    formatJava 2 1 "a;" = some "  a;" ∧ formatJava 2 1 "  a;" = some "   a;" ∧
      ("   a;" : String) ≠ "  a;" := by
  refine ⟨?_, ?_, ?_⟩ <;> decide

end Javax
